import Mathlib

/-!
Verification of the antigravity-openai-adapter format converters.

The development shallowly embeds the two converter modules of the
repository:

* `openai-to-anthropic.js` — the RequestTranslator
  (`convertMessages`, `convertUserContent`, `convertAssistantContent`,
  `convertTools`, `convertToolChoice`, `convertOpenAIToAnthropic`);
* `anthropic-to-openai.js` — the ResponseTranslator and StreamTranslator
  (`mapFinishReason`, `convertContent`, `convertAnthropicToOpenAI`,
  `convertStreamEvent`).

JavaScript idioms are made explicit: `a || b` on strings and numbers is
modelled by truthiness tests (`""` and `0` are falsy), absent object
fields by `Option`, and JSON values by a small inductive `Json`.
Host-library functions that the converters call (`JSON.parse`,
`JSON.stringify`) and the sources of nondeterminism
(`crypto.randomBytes`, `Date.now`) are passed in as parameters, bundled
in an `Env` record, so every definition stays executable and pure.
-/

/-- A JSON value, the result of `JSON.parse` and the payload of
structured tool arguments. -/
inductive Json where
  | null
  | bool (b : Bool)
  | num (n : Int)
  | str (s : String)
  | arr (elems : List Json)
  | obj (fields : List (String × Json))

/-- JavaScript truthiness of a JSON value (`null`, `false`, `0` and the
empty string are falsy; arrays and objects are always truthy). -/
def Json.truthy : Json → Bool
  | .null => false
  | .bool b => b
  | .num n => n != 0
  | .str s => s != ""
  | .arr _ => true
  | .obj _ => true

/-- `v || d` on JSON values: the default replaces a falsy value. -/
def jsJsonOr (o : Option Json) (d : Json) : Json :=
  match o with
  | some j => if j.truthy then j else d
  | none => d

/-- A part of an OpenAI content array: a text part, an image part
(carrying `part.image_url?.url`, absent url collapsing to `""` exactly
as `part.image_url?.url || ''` does), or an unrecognized part that the
converter passes through unchanged. -/
inductive OAPart where
  | text (t : String)
  | imageUrl (url : Option String)
  | otherPart (j : Json)

/-- An OpenAI `content` field: a plain string, an array of parts, or
anything else (`null`, `undefined`, a number, ...), which the converters
treat as neither-string-nor-array. -/
inductive OAContent where
  | str (s : String)
  | parts (ps : List OAPart)
  | absent

/-- The `arguments` field of a tool call: a string (to be parsed), an
already-structured value, or absent. -/
inductive ArgsField where
  | str (s : String)
  | json (j : Json)
  | absent

/-- An entry of an assistant message's `tool_calls` array
(`toolCall.function.name` / `toolCall.function.arguments` flattened). -/
structure OAToolCall where
  id : String
  name : String
  arguments : ArgsField

/-- A legacy `function_call` field of an assistant message. -/
structure OAFunctionCall where
  name : String
  arguments : ArgsField

/-- An inbound OpenAI chat message, discriminated by `role`; roles other
than the five the converter recognizes are collected in `otherRole`. -/
inductive OAMessage where
  | system (content : OAContent)
  | user (content : OAContent)
  | assistant (content : OAContent) (tool_calls : List OAToolCall)
      (function_call : Option OAFunctionCall)
  | tool (tool_call_id : String) (content : OAContent)
  | function (name : String) (content : OAContent)
  | otherRole

/-- Host-language services the converters use.  `parse` models
`JSON.parse` (`none` = the parse threw), `stringify` and `stringifyJson`
model `JSON.stringify` on a content value and on a structured JSON
value, and `legacyCallId` models the generated `call_${Date.now()}`
identifier for a legacy `function_call`. -/
structure Env where
  parse : String → Option Json
  stringify : OAContent → String
  stringifyJson : Json → String
  legacyCallId : String

/-- The source of an Anthropic image block. -/
inductive ImageSource where
  | base64 (media_type : String) (data : String)
  | url (u : String)

/-- A content block of an Anthropic-bound (upstream request) message. -/
inductive ABlockReq where
  | text (t : String)
  | image (source : ImageSource)
  | toolUse (id : String) (name : String) (input : Json)
  | toolResult (tool_use_id : String) (content : String)
  | otherBlock (j : Json)

/-- Whether a request block is a `tool_result` block. -/
def ABlockReq.isToolResult : ABlockReq → Bool
  | .toolResult _ _ => true
  | _ => false

/-- Whether a request block is a `tool_use` block. -/
def ABlockReq.isToolUse : ABlockReq → Bool
  | .toolUse _ _ _ => true
  | _ => false

/-- The content of an upstream message: a plain string, a block array,
or a passed-through non-string non-array value (a user message whose
OpenAI content was neither a string nor an array keeps it verbatim). -/
inductive AMsgContent where
  | str (s : String)
  | blocks (bs : List ABlockReq)
  | otherContent

/-- Whether any block of the content is a `tool_result` block. -/
def AMsgContent.hasToolResult : AMsgContent → Bool
  | .blocks bs => bs.any ABlockReq.isToolResult
  | _ => false

/-- An upstream (Anthropic-format) message. -/
structure AMessage where
  role : String
  content : AMsgContent

/-- The `^data:([^;]+);base64,(.+)$` match of `convertUserContent`:
the media type is one or more non-`;` characters, then the literal
`;base64,`, then one or more characters none of which is a line
terminator (`.` does not match `\n` or `\r`). -/
def parseDataUri (s : String) : Option (String × String) :=
  if String.isPrefixOf "data:" s then
    let rest := (s.drop 5).data
    let media := rest.takeWhile (fun c => c ≠ ';')
    let after := rest.dropWhile (fun c => c ≠ ';')
    if media ≠ [] ∧ List.isPrefixOf ";base64,".data after then
      let payload := after.drop 8
      if payload ≠ [] ∧ payload.all (fun c => c ≠ '\n' ∧ c ≠ '\r') then
        some (String.mk media, String.mk payload)
      else none
    else none
  else none

/-- `convertUserContent` on a single array part. -/
def convertUserPart (p : OAPart) : ABlockReq :=
  match p with
  | .text t => .text t
  | .imageUrl url =>
      let imageUrl := url.getD ""
      match parseDataUri imageUrl with
      | some (media, data) => .image (.base64 media data)
      | none => .image (.url imageUrl)
  | .otherPart j => .otherBlock j

/-- `convertUserContent`: strings pass through, arrays are converted
part-by-part, anything else is returned unchanged. -/
def convertUserContent (content : OAContent) : AMsgContent :=
  match content with
  | .str s => .str s
  | .parts ps => .blocks (ps.map convertUserPart)
  | .absent => .otherContent

/-- Resolution of a tool call's arguments:
`typeof args === 'string' ? JSON.parse(args) : args || {}`, with the
parse failure handler substituting `{ raw: args }`. -/
def resolveArgs (parse : String → Option Json) : ArgsField → Json
  | .str s =>
      match parse s with
      | some j => j
      | none => Json.obj [("raw", Json.str s)]
  | .json j => if j.truthy then j else Json.obj []
  | .absent => Json.obj []

/-- The text blocks contributed by an assistant message's `content`
field (`if (msg.content)` makes the empty string contribute nothing;
an array contributes its text parts only). -/
def assistantTextBlocks : OAContent → List ABlockReq
  | .str s => if s = "" then [] else [.text s]
  | .parts ps =>
      ps.filterMap (fun p =>
        match p with
        | .text t => some (.text t)
        | _ => none)
  | .absent => []

/-- The `tool_use` block produced from one `tool_calls` entry. -/
def toolCallBlock (parse : String → Option Json) (tc : OAToolCall) : ABlockReq :=
  .toolUse tc.id tc.name (resolveArgs parse tc.arguments)

/-- The `tool_use` block produced from a legacy `function_call` field,
whose generated id is `call_${Date.now()}` (modelled by
`Env.legacyCallId`). -/
def functionCallBlocks (env : Env) : Option OAFunctionCall → List ABlockReq
  | some fc => [.toolUse env.legacyCallId fc.name (resolveArgs env.parse fc.arguments)]
  | none => []

/-- The block list an assistant message accumulates before collapsing. -/
def assistantBlocks (env : Env) (content : OAContent) (tool_calls : List OAToolCall)
    (function_call : Option OAFunctionCall) : List ABlockReq :=
  assistantTextBlocks content ++ tool_calls.map (toolCallBlock env.parse)
    ++ functionCallBlocks env function_call

/-- The tail of `convertAssistantContent`: a lone text block collapses
to a bare string, an empty list to `''`, anything else stays a list. -/
def collapseAssistant (bs : List ABlockReq) : AMsgContent :=
  match bs with
  | [ABlockReq.text t] => .str t
  | [] => .str ""
  | other => .blocks other

/-- `convertAssistantContent`: text parts, `tool_calls` entries and the
legacy `function_call` become blocks, then the list is collapsed. -/
def convertAssistantContent (env : Env) (content : OAContent)
    (tool_calls : List OAToolCall) (function_call : Option OAFunctionCall) : AMsgContent :=
  collapseAssistant (assistantBlocks env content tool_calls function_call)

/-- `JSON.stringify` step for a tool/function message's content:
a string passes through, anything else is stringified. -/
def toolResultContentStr (env : Env) : OAContent → String
  | .str s => s
  | c => env.stringify c

/-- Placement of a freshly built `tool_result` block.  The accumulator
holds the upstream messages in reverse order, so the JavaScript
`messages[messages.length - 1]` is the head.  A user-role last message
with string content is rewritten to `[text, tool_result]`; with array
content the block is pushed; with any other content the source has no
branch and the block is dropped; otherwise a synthetic user message is
created. -/
def stepToolResult (tr : ABlockReq) (acc : List AMessage) : List AMessage :=
  match acc with
  | m :: rest =>
      if m.role = "user" then
        match m.content with
        | .str s => { role := "user", content := .blocks [.text s, tr] } :: rest
        | .blocks bs => { role := "user", content := .blocks (bs ++ [tr]) } :: rest
        | .otherContent => m :: rest
      else
        { role := "user", content := .blocks [tr] } :: m :: rest
  | [] => [{ role := "user", content := .blocks [tr] }]

/-- The text extracted from a system message's content array:
`content.filter(p => p.type === 'text').map(p => p.text).join('\n')`. -/
def systemPartsText (ps : List OAPart) : String :=
  String.intercalate "\n" (ps.filterMap (fun p =>
    match p with
    | .text t => some t
    | _ => none))

/-- `system = system ? system + '\n\n' + s : s` — the accumulated
system string absorbs a new contribution, restarting when the
accumulator is falsy (`null` or `""`). -/
def joinSystem (system : Option String) (s : String) : String :=
  match system with
  | some t => if t = "" then s else t ++ "\n\n" ++ s
  | none => s

/-- One system message's effect on the accumulated system string
(neither-string-nor-array content leaves it untouched). -/
def accumSystem (system : Option String) (content : OAContent) : Option String :=
  match content with
  | .str s => some (joinSystem system s)
  | .parts ps => some (joinSystem system (systemPartsText ps))
  | .absent => system

/-- One iteration of the `convertMessages` loop.  The state is the
accumulated system string and the upstream messages in reverse order. -/
def convertStep (env : Env) (st : Option String × List AMessage)
    (msg : OAMessage) : Option String × List AMessage :=
  match msg with
  | .system content => (accumSystem st.1 content, st.2)
  | .user content =>
      (st.1, { role := "user", content := convertUserContent content } :: st.2)
  | .assistant content tcs fc =>
      (st.1, { role := "assistant", content := convertAssistantContent env content tcs fc } :: st.2)
  | .tool tool_call_id content =>
      (st.1, stepToolResult (.toolResult tool_call_id (toolResultContentStr env content)) st.2)
  | .function name content =>
      (st.1, stepToolResult (.toolResult name (toolResultContentStr env content)) st.2)
  | .otherRole => st

/-- `convertMessages`: fold the loop over the input and restore source
order of the accumulated upstream messages. -/
def convertMessages (env : Env) (msgs : List OAMessage) : Option String × List AMessage :=
  let r := msgs.foldl (convertStep env) (none, [])
  (r.1, r.2.reverse)

/-- An inbound OpenAI tool definition: the typed shape
(`{type:'function', function:{...}}`), the legacy bare shape, or
something else entirely. -/
inductive OATool where
  | typed (fnName : String) (fnDescription : Option String) (fnParameters : Option Json)
  | legacy (name : String) (description : Option String) (parameters : Option Json)
  | otherTool

/-- An upstream tool definition, or an unrecognized tool passed through
unchanged (`return tool`). -/
inductive ATool where
  | spec (name : String) (description : String) (input_schema : Json)
  | passthrough (t : OATool)

/-- The default `{ type: 'object' }` input schema. -/
def defaultSchema : Json := Json.obj [("type", Json.str "object")]

/-- One step of `convertTools`: typed tools always convert, legacy
tools convert only when `tool.name` is truthy, anything else passes
through. -/
def convertTool (t : OATool) : ATool :=
  match t with
  | .typed fnName fnDescription fnParameters =>
      .spec fnName (fnDescription.getD "") (jsJsonOr fnParameters defaultSchema)
  | .legacy name description parameters =>
      if name = "" then .passthrough t
      else .spec name (description.getD "") (jsJsonOr parameters defaultSchema)
  | .otherTool => .passthrough t

/-- `convertTools`: `undefined` unless the input is an array. -/
def convertTools (openaiTools : Option (List OATool)) : Option (List ATool) :=
  match openaiTools with
  | some ts => some (ts.map convertTool)
  | none => none

/-- An inbound `tool_choice` value: a string, an object naming a
function (`{type:'function', function:{name}}`, empty name standing for
a falsy `function?.name`), or some other object. -/
inductive OAToolChoice where
  | str (s : String)
  | fnObj (name : String)
  | otherChoice

/-- An upstream `tool_choice` directive. -/
inductive AToolChoice where
  | tcNone
  | auto
  | any
  | tool (name : String)

/-- `convertToolChoice`: falsy input gives `undefined`; the strings
`none`/`auto`/`required` map to `none`/`auto`/`any`, any other string
and any unrecognized object map to `auto`; a function-naming object
becomes a forced single-tool directive. -/
def convertToolChoice (openaiToolChoice : Option OAToolChoice) : Option AToolChoice :=
  match openaiToolChoice with
  | none => none
  | some (.str s) =>
      if s = "" then none
      else if s = "none" then some .tcNone
      else if s = "auto" then some .auto
      else if s = "required" then some .any
      else some .auto
  | some (.fnObj name) =>
      if name = "" then some .auto else some (.tool name)
  | some .otherChoice => some .auto

/-- `mapModel`: the identifier is forwarded verbatim. -/
def mapModel (openaiModel : String) : String := openaiModel

/-- The inbound `stop` field: absent, a single string, or an array. -/
inductive StopField where
  | absent
  | str (s : String)
  | arr (xs : List String)

/-- An inbound OpenAI Chat Completions request.  Only the fields the
converter destructures are modelled; the explicitly ignored parameters
(`frequency_penalty`, `presence_penalty`, `logprobs`, `n`, `seed`,
`user`, `response_format`) never influence the output and are elided. -/
structure ChatRequest where
  model : Option String := none
  messages : Option (List OAMessage) := none
  max_tokens : Option Nat := none
  max_completion_tokens : Option Nat := none
  temperature : Option ℚ := none
  top_p : Option ℚ := none
  stream : Option Bool := none
  tools : Option (List OATool) := none
  tool_choice : Option OAToolChoice := none
  stop : StopField := .absent

/-- The `thinking` parameter of an upstream request
(`type: 'enabled'` is constant and elided). -/
structure Thinking where
  budget_tokens : Nat
deriving DecidableEq

/-- An upstream Anthropic Messages request. -/
structure AnthropicRequest where
  model : String
  messages : List AMessage
  max_tokens : Nat
  stream : Bool
  system : Option String := none
  temperature : Option ℚ := none
  top_p : Option ℚ := none
  tools : Option (List ATool) := none
  tool_choice : Option AToolChoice := none
  stop_sequences : Option (List String) := none
  thinking : Option Thinking := none

/-- `x || d` on an optional number (`0` is falsy). -/
def numOr (x : Option Nat) (d : Nat) : Nat :=
  match x with
  | some n => if n = 0 then d else n
  | none => d

/-- `s || d` truthiness on an optional string. -/
def strOr (x : Option String) (d : String) : String :=
  match x with
  | some s => if s = "" then d else s
  | none => d

/-- Truthiness of an optional string (the `if (system)` test). -/
def jsTruthyStr (o : Option String) : Bool :=
  match o with
  | some s => s != ""
  | none => false

/-- `String.prototype.includes` on the underlying character lists. -/
def listHasSub (sub : List Char) : List Char → Bool
  | [] => sub.isEmpty
  | c :: rest => sub.isPrefixOf (c :: rest) || listHasSub sub rest

/-- `haystack.includes(needle)`. -/
def strContainsSub (s sub : String) : Bool :=
  listHasSub sub.data s.data

/-- `convertOpenAIToAnthropic`: the body of the RequestTranslator.
Conditional mutations of the JavaScript object become conditional
`Option` fields of the record. -/
def convertOpenAIToAnthropic (env : Env) (req : ChatRequest) : AnthropicRequest :=
  let sysMsgs := convertMessages env (req.messages.getD [])
  let system := sysMsgs.1
  let anthropicMessages := sysMsgs.2
  let maxTokens := numOr req.max_completion_tokens (numOr req.max_tokens 4096)
  let model := mapModel (strOr req.model "gpt-4")
  let anthropicTools := convertTools req.tools
  { model := model
    messages := anthropicMessages
    max_tokens := maxTokens
    stream := req.stream.getD false
    system := if jsTruthyStr system then system else none
    temperature := req.temperature.map (fun t => max 0 (min 1 t))
    top_p := req.top_p
    tools :=
      match anthropicTools with
      | some l => if l.length > 0 then some l else none
      | none => none
    tool_choice := convertToolChoice req.tool_choice
    stop_sequences :=
      match req.stop with
      | .absent => none
      | .str s => if s = "" then none else some [s]
      | .arr xs => some xs
    thinking :=
      if strContainsSub model "thinking" then
        some { budget_tokens := min 16000 ((numOr (some maxTokens) 4096) / 2) }
      else none }


/-- A content block of an upstream (Anthropic) response. -/
inductive ABlockResp where
  | text (t : String)
  | thinking (t : String)
  | toolUse (id : String) (name : String) (input : Option Json)
  | otherResp

/-- Whether a response block is a thinking block. -/
def ABlockResp.isThinking : ABlockResp → Bool
  | .thinking _ => true
  | _ => false

/-- Left-to-right concatenation of a list of strings. -/
def concatStrings : List String → String
  | [] => ""
  | s :: rest => s ++ concatStrings rest

/-- `textContent += block.text` over the loop. -/
def concatTexts : List ABlockResp → String
  | [] => ""
  | .text t :: rest => t ++ concatTexts rest
  | _ :: rest => concatTexts rest

/-- `thinkingContent += block.thinking` over the loop. -/
def concatThinking : List ABlockResp → String
  | [] => ""
  | .thinking t :: rest => t ++ concatThinking rest
  | _ :: rest => concatThinking rest

/-- An outbound OpenAI tool-call entry (`type: 'function'` constant,
`function.name` / `function.arguments` flattened). -/
structure OAIToolCall where
  id : String
  name : String
  arguments : String

/-- The assistant message of an outbound OpenAI choice.  `content` is
`none` for JSON `null` and `some ""` for the empty string; the custom
`_thinking` side channel is modelled by `thinking_field`. -/
structure OAIMessage where
  role : String
  content : Option String
  tool_calls : Option (List OAIToolCall) := none
  thinking_field : Option String := none
  reasoning_content : Option String := none

/-- The tool-call entries harvested from the response content blocks
(`JSON.stringify(block.input || {})` re-serializes the input). -/
def harvestToolCalls (env : Env) (blocks : List ABlockResp) : List OAIToolCall :=
  blocks.filterMap (fun b =>
    match b with
    | .toolUse id name input =>
        some { id := id, name := name,
               arguments := env.stringifyJson (jsJsonOr input (Json.obj [])) }
    | _ => none)

/-- `convertContent`.  The input is `none` when the response `content`
field is missing or not an array (the `!content || !Array.isArray`
guard).  The JavaScript re-assignment of `content = null` under
`tool_calls` is a no-op (`textContent || null` is already `null` when
`textContent` is falsy) and is folded into the single conditional. -/
def convertContent (env : Env) (content : Option (List ABlockResp)) : OAIMessage × Bool :=
  match content with
  | none => ({ role := "assistant", content := some "" }, false)
  | some blocks =>
      let textContent := concatTexts blocks
      let thinkingContent := concatThinking blocks
      let hasThinking := blocks.any ABlockResp.isThinking
      let toolCalls := harvestToolCalls env blocks
      let message : OAIMessage :=
        { role := "assistant"
          content := if textContent = "" then none else some textContent
          tool_calls := if toolCalls.length > 0 then some toolCalls else none
          thinking_field :=
            if hasThinking && thinkingContent != "" then some thinkingContent else none
          reasoning_content :=
            if hasThinking && thinkingContent != "" then some thinkingContent else none }
      (message, toolCalls.length > 0)

/-- The own properties of the `reasonMap` object literal. -/
def reasonMap : List (String × String) :=
  [("end_turn", "stop"), ("stop_sequence", "stop"),
   ("max_tokens", "length"), ("tool_use", "tool_calls")]

/-- The member names every plain object literal inherits from
`Object.prototype`: reading any of these names on `reasonMap` yields a
truthy value (a built-in function, or for the `__proto__` accessor the
prototype object itself), never `undefined`. -/
def objectPrototypeKeys : List String :=
  ["constructor", "hasOwnProperty", "isPrototypeOf", "propertyIsEnumerable",
   "toLocaleString", "toString", "valueOf", "__proto__", "__defineGetter__",
   "__defineSetter__", "__lookupGetter__", "__lookupSetter__"]

/-- The result of the JavaScript property read `reasonMap[r]`: an own
property of the literal, a member inherited from `Object.prototype`,
or `undefined`. -/
inductive JsProp where
  | own (v : String)
  | inherited (name : String)
  | missing
deriving DecidableEq

/-- `reasonMap[r]`: own properties shadow the prototype; any other
name is looked up on `Object.prototype` before yielding `undefined`. -/
def reasonMapGet (r : String) : JsProp :=
  match reasonMap.lookup r with
  | some v => .own v
  | none => if r ∈ objectPrototypeKeys then .inherited r else .missing

/-- A finish-reason value: one of the mapped strings, or a truthy
`Object.prototype` member that the lookup returned unchanged. -/
inductive FinishValue where
  | str (s : String)
  | protoMember (name : String)
deriving DecidableEq

/-- `mapFinishReason`: `reasonMap[stopReason] || 'stop'`.  The `||`
fallback fires only when the property read yields `undefined` (an
absent stop reason indexes the object with `undefined` and falls back
too); an inherited `Object.prototype` member is truthy and is returned
as-is. -/
def mapFinishReason (stopReason : Option String) : FinishValue :=
  match stopReason with
  | some r =>
      match reasonMapGet r with
      | .own v => .str v
      | .inherited name => .protoMember name
      | .missing => .str "stop"
  | none => .str "stop"

/-- Upstream usage accounting (absent counts are falsy and collapse
to `0`). -/
structure AUsage where
  input_tokens : Option Nat := none
  output_tokens : Option Nat := none
  cache_read_input_tokens : Option Nat := none
  cache_creation_input_tokens : Option Nat := none
deriving DecidableEq

/-- An upstream Anthropic Messages response (only the destructured
fields). -/
structure AnthropicResponse where
  content : Option (List ABlockResp) := none
  model : Option String := none
  stop_reason : Option String := none
  usage : Option AUsage := none

/-- The `prompt_tokens_details` cache sub-field. -/
structure UsageDetails where
  cached_tokens : Nat
deriving DecidableEq

/-- Outbound usage totals. -/
structure OAIUsage where
  prompt_tokens : Nat
  completion_tokens : Nat
  total_tokens : Nat
  prompt_tokens_details : Option UsageDetails := none
deriving DecidableEq

/-- An outbound choice (`logprobs` is always `null`). -/
structure OAIChoice where
  index : Nat
  message : OAIMessage
  logprobs : Option Unit := none
  finish_reason : FinishValue

/-- An outbound OpenAI Chat Completions response. -/
structure OAIResponse where
  id : String
  object : String
  created : Nat
  model : Option String
  choices : List OAIChoice
  usage : OAIUsage
  system_fingerprint : Option Unit := none

/-- `a || b` where both operands are optional strings. -/
def jsOrOptStr (a b : Option String) : Option String :=
  match a with
  | some s => if s = "" then b else some s
  | none => b

/-- `convertAnthropicToOpenAI`.  `freshId` models the
`crypto.randomBytes(12).toString('hex')` suffix and `now` the
`Math.floor(Date.now() / 1000)` timestamp. -/
def convertAnthropicToOpenAI (env : Env) (freshId : String) (now : Nat)
    (anthropicResponse : AnthropicResponse) (requestModel : Option String) : OAIResponse :=
  let mc := convertContent env anthropicResponse.content
  let finishReason := mapFinishReason anthropicResponse.stop_reason
  let u := anthropicResponse.usage
  let inTok := (u.bind AUsage.input_tokens).getD 0
  let outTok := (u.bind AUsage.output_tokens).getD 0
  let cacheRead := (u.bind AUsage.cache_read_input_tokens).getD 0
  let cacheCreate := (u.bind AUsage.cache_creation_input_tokens).getD 0
  { id := "chatcmpl-" ++ freshId
    object := "chat.completion"
    created := now
    model := jsOrOptStr requestModel anthropicResponse.model
    choices := [{ index := 0, message := mc.1, logprobs := none,
                  finish_reason := finishReason }]
    usage :=
      { prompt_tokens := inTok
        completion_tokens := outTok
        total_tokens := inTok + outTok
        prompt_tokens_details :=
          if cacheRead ≠ 0 ∨ cacheCreate ≠ 0 then
            some { cached_tokens := cacheRead }
          else none } }

/-- A `content_block_delta` payload. -/
inductive ADelta where
  | text_delta (text : String)
  | thinking_delta (thinking : String)
  | input_json_delta (partial_json : String)
  | otherDelta

/-- The `content_block` of a `content_block_start` event. -/
inductive ABlockStart where
  | tool_use (id : String) (name : String)
  | otherStart

/-- An upstream SSE event, discriminated by `type`.  A `message_delta`
carries an optional `delta.stop_reason` and an optional event-level
`usage` object. -/
inductive AEvent where
  | message_start
  | content_block_start (content_block : Option ABlockStart)
  | content_block_delta (delta : Option ADelta)
  | content_block_stop
  | message_delta (stop_reason : Option String) (usage : Option AUsage)
  | message_stop
  | error

/-- The tool call currently receiving incremental arguments. -/
structure CurrentToolCall where
  index : Nat
  id : String
  name : String
deriving DecidableEq

/-- Outbound usage totals stored in the stream state. -/
structure StreamUsage where
  prompt_tokens : Nat
  completion_tokens : Nat
  total_tokens : Nat
deriving DecidableEq

/-- The per-stream mutable state threaded through `convertStreamEvent`. -/
structure StreamState where
  responseId : Option String := none
  created : Option Nat := none
  toolCallIndex : Option Nat := none
  currentToolCall : Option CurrentToolCall := none
  usage : Option StreamUsage := none
deriving DecidableEq

/-- One entry of a chunk's `delta.tool_calls` array. -/
structure ToolCallDelta where
  index : Nat
  id : Option String := none
  callType : Option String := none
  fnName : Option String := none
  fnArguments : Option String := none
deriving DecidableEq

/-- A chunk's `delta` object. -/
structure ChunkDelta where
  role : Option String := none
  content : Option String := none
  reasoning_content : Option String := none
  tool_calls : Option (List ToolCallDelta) := none
deriving DecidableEq

/-- A chunk's choice (`logprobs` is always `null`). -/
structure ChunkChoice where
  index : Nat
  delta : ChunkDelta
  logprobs : Option Unit := none
  finish_reason : Option FinishValue := none
deriving DecidableEq

/-- An outbound OpenAI streaming chunk. -/
structure Chunk where
  id : String
  object : String := "chat.completion.chunk"
  created : Nat
  model : String
  choices : List ChunkChoice
  usage : Option StreamUsage := none
deriving DecidableEq

/-- `convertStreamEvent`.  `freshId` models the
`chatcmpl-${crypto.randomBytes(12).toString('hex')}` generation and
`now` the `Math.floor(Date.now() / 1000)` timestamp, both used only
when the state does not already carry truthy values.  The mutation of
the caller's state object becomes a returned updated state. -/
def convertStreamEvent (freshId : String) (now : Nat) (requestModel : String)
    (anthropicEvent : AEvent) (state : StreamState) : List Chunk × StreamState :=
  let responseId :=
    match state.responseId with
    | some r => if r = "" then "chatcmpl-" ++ freshId else r
    | none => "chatcmpl-" ++ freshId
  let created :=
    match state.created with
    | some c => if c = 0 then now else c
    | none => now
  let state1 := { state with responseId := some responseId, created := some created }
  match anthropicEvent with
  | .message_start =>
      ([{ id := responseId, created := created, model := requestModel,
          choices := [{ index := 0,
                        delta := { role := some "assistant", content := some "" } }] }],
       state1)
  | .content_block_start content_block =>
      match content_block with
      | some (.tool_use id name) =>
          let index := state1.toolCallIndex.getD 0
          let state2 := { state1 with
            currentToolCall := some { index := index, id := id, name := name }
            toolCallIndex := some (index + 1) }
          ([{ id := responseId, created := created, model := requestModel,
              choices := [{ index := 0,
                            delta := { tool_calls := some [{ index := index,
                                                             id := some id,
                                                             callType := some "function",
                                                             fnName := some name,
                                                             fnArguments := some "" }] } }] }],
           state2)
      | _ => ([], state1)
  | .content_block_delta delta =>
      match delta with
      | some (.text_delta text) =>
          if text = "" then ([], state1)
          else
            ([{ id := responseId, created := created, model := requestModel,
                choices := [{ index := 0, delta := { content := some text } }] }],
             state1)
      | some (.thinking_delta thinking) =>
          if thinking = "" then ([], state1)
          else
            ([{ id := responseId, created := created, model := requestModel,
                choices := [{ index := 0,
                              delta := { reasoning_content := some thinking } }] }],
             state1)
      | some (.input_json_delta partial_json) =>
          if partial_json = "" then ([], state1)
          else
            match state1.currentToolCall with
            | some ctc =>
                ([{ id := responseId, created := created, model := requestModel,
                    choices := [{ index := 0,
                                  delta := { tool_calls := some [{ index := ctc.index,
                                                                   fnArguments := some partial_json }] } }] }],
                 state1)
            | none => ([], state1)
      | _ => ([], state1)
  | .content_block_stop => ([], { state1 with currentToolCall := none })
  | .message_delta stop_reason usage =>
      let finishChunks :=
        match stop_reason with
        | some r =>
            if r = "" then []
            else
              [{ id := responseId, created := created, model := requestModel,
                 choices := [{ index := 0, delta := {},
                               finish_reason := some (mapFinishReason (some r)) }] : Chunk }]
        | none => []
      match usage with
      | some u =>
          let stateUsage : StreamUsage :=
            { prompt_tokens := u.input_tokens.getD 0
              completion_tokens := u.output_tokens.getD 0
              total_tokens := u.input_tokens.getD 0 + u.output_tokens.getD 0 }
          (finishChunks ++
             [{ id := responseId, created := created, model := requestModel,
                choices := [], usage := some stateUsage }],
           { state1 with usage := some stateUsage })
      | none => (finishChunks, state1)
  | .message_stop => ([], state1)
  | .error => ([], state1)

/-- Feeding a whole event sequence through `convertStreamEvent` with one
threaded state, collecting the emitted chunks in emission order. -/
def runStream (freshId : String) (now : Nat) (requestModel : String) :
    List AEvent → StreamState → List Chunk
  | [], _ => []
  | e :: es, st =>
      let r := convertStreamEvent freshId now requestModel e st
      r.1 ++ runStream freshId now requestModel es r.2

/-- The content-delta text carried by one chunk (absent content
contributes the empty string). -/
def chunkContentText (c : Chunk) : String :=
  concatStrings (c.choices.map (fun ch => ch.delta.content.getD ""))

/-- The content-delta text carried by a chunk sequence, in emission
order. -/
def chunksContentText (cs : List Chunk) : String :=
  concatStrings (cs.map chunkContentText)

/-- The `text_delta` payload carried by one upstream event. -/
def eventTextDelta : AEvent → String
  | .content_block_delta (some (.text_delta t)) => t
  | _ => ""

/-- The `text_delta` payloads of an event sequence concatenated in
arrival order. -/
def upstreamTextConcat (evs : List AEvent) : String :=
  concatStrings (evs.map eventTextDelta)

/-- The `delta.stop_reason` carried by an upstream event, if any. -/
def eventStopReason : AEvent → Option String
  | .message_delta stop_reason _ => stop_reason
  | _ => none

/-- Whether an inbound message's role pushes (or synthesizes) an
upstream message: user, assistant, tool and legacy function do, system
and unrecognized roles do not. -/
def producesMessage : OAMessage → Bool
  | .user _ => true
  | .assistant _ _ _ => true
  | .tool _ _ => true
  | .function _ _ => true
  | _ => false

/-- Whether an inbound message is a system message whose extracted text
is non-empty. -/
def sysContribNonempty : OAMessage → Bool
  | .system (.str s) => s != ""
  | .system (.parts ps) => systemPartsText ps != ""
  | _ => false

/-- Whether the last upstream message of a sequence has user role. -/
def lastRoleIsUser (l : List AMessage) : Bool :=
  match l.getLast? with
  | some m => m.role == "user"
  | none => false

/-- A concrete environment used to instantiate the universally
quantified host services in witnesses: its `JSON.parse` always fails
and its serializers return fixed strings. -/
def testEnv : Env :=
  { parse := fun _ => none
    stringify := fun _ => "S"
    stringifyJson := fun _ => "J"
    legacyCallId := "call_0" }

theorem strAppend_ne_empty_left {a : String} (b : String) (h : a ≠ "") : a ++ b ≠ "" := by
  intro hab
  apply h
  have hd := congrArg String.data hab
  rw [String.data_append] at hd
  exact String.ext (List.append_eq_nil.mp hd).1

theorem strAppend_ne_empty_right (a : String) {b : String} (h : b ≠ "") : a ++ b ≠ "" := by
  intro hab
  apply h
  have hd := congrArg String.data hab
  rw [String.data_append] at hd
  exact String.ext (List.append_eq_nil.mp hd).2

theorem concatStrings_append (l1 l2 : List String) :
    concatStrings (l1 ++ l2) = concatStrings l1 ++ concatStrings l2 := by
  induction l1 with
  | nil => simp [concatStrings]
  | cons s rest ih => simp [concatStrings, ih, String.append_assoc]

theorem jsTruthyStr_joinSystem (o : Option String) (s : String) :
    jsTruthyStr (some (joinSystem o s)) = (jsTruthyStr o || (s != "")) := by
  rcases o with _ | t
  · rfl
  · by_cases ht : t = ""
    · subst ht; simp [joinSystem, jsTruthyStr]
    · simp only [joinSystem, if_neg ht, jsTruthyStr]
      have h1 : t ++ "\n\n" ++ s ≠ "" :=
        strAppend_ne_empty_left s (strAppend_ne_empty_left "\n\n" ht)
      rw [bne_iff_ne.mpr h1, bne_iff_ne.mpr ht, Bool.true_or]

theorem convertStep_sys (env : Env) (st : Option String × List AMessage) (msg : OAMessage) :
    jsTruthyStr (convertStep env st msg).1 = (jsTruthyStr st.1 || sysContribNonempty msg) := by
  cases msg with
  | system content =>
      cases content with
      | str s => simp [convertStep, accumSystem, sysContribNonempty, jsTruthyStr_joinSystem]
      | parts ps => simp [convertStep, accumSystem, sysContribNonempty, jsTruthyStr_joinSystem]
      | absent => simp [convertStep, accumSystem, sysContribNonempty]
  | user content => simp [convertStep, sysContribNonempty]
  | assistant content tcs fc => simp [convertStep, sysContribNonempty]
  | tool tool_call_id content => simp [convertStep, sysContribNonempty]
  | function name content => simp [convertStep, sysContribNonempty]
  | otherRole => simp [convertStep, sysContribNonempty]

theorem foldl_convertStep_sys (env : Env) (msgs : List OAMessage) :
    ∀ st : Option String × List AMessage,
      jsTruthyStr (msgs.foldl (convertStep env) st).1
        = (jsTruthyStr st.1 || msgs.any sysContribNonempty) := by
  induction msgs with
  | nil => intro st; simp
  | cons hd tl ih =>
      intro st
      rw [List.foldl_cons, ih, convertStep_sys]
      simp [Bool.or_assoc]

theorem stepToolResult_ne_nil (tr : ABlockReq) (acc : List AMessage) :
    stepToolResult tr acc ≠ [] := by
  rcases acc with _ | ⟨m, rest⟩
  · simp [stepToolResult]
  · by_cases hrole : m.role = "user"
    · cases hc : m.content <;> simp [stepToolResult, hrole, hc]
    · simp [stepToolResult, hrole]

theorem convertStep_snd_ne_nil (env : Env) (st : Option String × List AMessage)
    (msg : OAMessage) (h : st.2 ≠ []) : (convertStep env st msg).2 ≠ [] := by
  cases msg with
  | system content => exact h
  | user content => simp [convertStep]
  | assistant content tcs fc => simp [convertStep]
  | tool tool_call_id content => exact stepToolResult_ne_nil _ _
  | function name content => exact stepToolResult_ne_nil _ _
  | otherRole => exact h

theorem foldl_convertStep_snd_ne_nil (env : Env) (msgs : List OAMessage) :
    ∀ st : Option String × List AMessage,
      st.2 ≠ [] → (msgs.foldl (convertStep env) st).2 ≠ [] := by
  induction msgs with
  | nil => intro st h; exact h
  | cons hd tl ih =>
      intro st h
      rw [List.foldl_cons]
      exact ih _ (convertStep_snd_ne_nil env st hd h)

theorem convertStep_produces (env : Env) (st : Option String × List AMessage)
    (msg : OAMessage) (h : producesMessage msg = true) : (convertStep env st msg).2 ≠ [] := by
  cases msg with
  | system content => simp [producesMessage] at h
  | user content => simp [convertStep]
  | assistant content tcs fc => simp [convertStep]
  | tool tool_call_id content => exact stepToolResult_ne_nil _ _
  | function name content => exact stepToolResult_ne_nil _ _
  | otherRole => simp [producesMessage] at h

theorem foldl_convertStep_produces (env : Env) (msgs : List OAMessage) :
    ∀ st : Option String × List AMessage,
      (∃ m ∈ msgs, producesMessage m = true) → (msgs.foldl (convertStep env) st).2 ≠ [] := by
  induction msgs with
  | nil => intro st h; simp at h
  | cons hd tl ih =>
      intro st h
      rw [List.foldl_cons]
      rcases h with ⟨m, hm, hp⟩
      rcases List.mem_cons.mp hm with rfl | hmtl
      · exact foldl_convertStep_snd_ne_nil env tl _ (convertStep_produces env st m hp)
      · exact ih _ ⟨m, hmtl, hp⟩

/-- No message in the list is an assistant-role message containing a
`tool_result` block. -/
def assistantOk (l : List AMessage) : Prop :=
  ∀ m ∈ l, m.role = "assistant" → m.content.hasToolResult = false

theorem assistantBlocks_no_toolResult (env : Env) (content : OAContent)
    (tcs : List OAToolCall) (fc : Option OAFunctionCall) :
    ∀ b ∈ assistantBlocks env content tcs fc, b.isToolResult = false := by
  intro b hb
  rcases List.mem_append.mp hb with h | h
  · rcases List.mem_append.mp h with h1 | h2
    · cases content with
      | str s =>
          by_cases hs : s = "" <;> simp [assistantTextBlocks, hs] at h1
          subst h1; rfl
      | parts ps =>
          rcases List.mem_filterMap.mp h1 with ⟨p, _, hp⟩
          cases p <;> simp at hp
          subst hp; rfl
      | absent => simp [assistantTextBlocks] at h1
    · rcases List.mem_map.mp h2 with ⟨tc, _, rfl⟩
      rfl
  · rcases fc with _ | f
    · simp [functionCallBlocks] at h
    · simp [functionCallBlocks] at h
      subst h; rfl

theorem collapseAssistant_hasToolResult (bs : List ABlockReq)
    (h : ∀ b ∈ bs, b.isToolResult = false) :
    (collapseAssistant bs).hasToolResult = false := by
  rcases bs with _ | ⟨b, _ | ⟨b2, rest⟩⟩
  · rfl
  · cases b <;>
      simp [collapseAssistant, AMsgContent.hasToolResult, h _ (List.mem_singleton.mpr rfl)]
  · simp only [collapseAssistant, AMsgContent.hasToolResult]
    rw [List.any_eq_false]
    intro x hx
    simp [h x hx]

theorem convertAssistantContent_no_toolResult (env : Env) (content : OAContent)
    (tcs : List OAToolCall) (fc : Option OAFunctionCall) :
    (convertAssistantContent env content tcs fc).hasToolResult = false :=
  collapseAssistant_hasToolResult _ (assistantBlocks_no_toolResult env content tcs fc)

theorem stepToolResult_assistantOk (tr : ABlockReq) (acc : List AMessage)
    (h : assistantOk acc) : assistantOk (stepToolResult tr acc) := by
  rcases acc with _ | ⟨m0, rest⟩
  · intro m hm hrole
    simp [stepToolResult] at hm
    subst hm
    simp at hrole
  · by_cases hrole0 : m0.role = "user"
    · cases hc : m0.content with
      | str s =>
          intro m hm hrole
          simp [stepToolResult, hrole0, hc] at hm
          rcases hm with rfl | hm
          · simp at hrole
          · exact h m (List.mem_cons_of_mem _ hm) hrole
      | blocks bs =>
          intro m hm hrole
          simp [stepToolResult, hrole0, hc] at hm
          rcases hm with rfl | hm
          · simp at hrole
          · exact h m (List.mem_cons_of_mem _ hm) hrole
      | otherContent =>
          intro m hm hrole
          simp [stepToolResult, hrole0, hc] at hm
          rcases hm with rfl | hm
          · exact h m (List.mem_cons_self _ _) hrole
          · exact h m (List.mem_cons_of_mem _ hm) hrole
    · intro m hm hrole
      simp [stepToolResult, hrole0] at hm
      rcases hm with rfl | rfl | hm
      · simp at hrole
      · exact h _ (List.mem_cons_self _ _) hrole
      · exact h _ (List.mem_cons_of_mem _ hm) hrole

theorem convertStep_assistantOk (env : Env) (st : Option String × List AMessage)
    (msg : OAMessage) (h : assistantOk st.2) : assistantOk (convertStep env st msg).2 := by
  cases msg with
  | system content => exact h
  | user content =>
      intro m hm hrole
      simp [convertStep] at hm
      rcases hm with rfl | hm
      · simp at hrole
      · exact h m hm hrole
  | assistant content tcs fc =>
      intro m hm hrole
      simp [convertStep] at hm
      rcases hm with rfl | hm
      · exact convertAssistantContent_no_toolResult env content tcs fc
      · exact h m hm hrole
  | tool tool_call_id content => exact stepToolResult_assistantOk _ _ h
  | function name content => exact stepToolResult_assistantOk _ _ h
  | otherRole => exact h

theorem foldl_convertStep_assistantOk (env : Env) (msgs : List OAMessage) :
    ∀ st : Option String × List AMessage,
      assistantOk st.2 → assistantOk (msgs.foldl (convertStep env) st).2 := by
  induction msgs with
  | nil => intro st h; exact h
  | cons hd tl ih =>
      intro st h
      rw [List.foldl_cons]
      exact ih _ (convertStep_assistantOk env st hd h)

theorem truthy_guard_isSome (o : Option String) :
    (if jsTruthyStr o = true then o else none).isSome = jsTruthyStr o := by
  rcases o with _ | s
  · rfl
  · by_cases hs : s = "" <;> simp [jsTruthyStr, hs]

/-- C1 (counterexample): a well-formed request whose non-empty message
list consists of a single system message is translated to an upstream
request whose messages list is empty, contradicting the claim that a
non-empty input always yields a non-empty upstream message list; and a
request containing a system-role message with empty string content
yields no upstream system field at all, contradicting the claimed
presence of the system field whenever a system-role message exists. -/
theorem claimC1_counterexample :
    ({ messages := some [OAMessage.system (OAContent.str "hello")] } : ChatRequest).messages
      = some [OAMessage.system (OAContent.str "hello")] ∧
    (convertOpenAIToAnthropic testEnv
      { messages := some [OAMessage.system (OAContent.str "hello")] }).messages = [] ∧
    ({ messages := some [OAMessage.system (OAContent.str ""),
        OAMessage.user (OAContent.str "hi")] } : ChatRequest).messages
      = some [OAMessage.system (OAContent.str ""), OAMessage.user (OAContent.str "hi")] ∧
    (convertOpenAIToAnthropic testEnv
      { messages := some [OAMessage.system (OAContent.str ""),
          OAMessage.user (OAContent.str "hi")] }).system = none :=
  ⟨rfl, rfl, rfl, rfl⟩

/-- C1 (amended): for every ChatRequest whose message list contains at
least one message of role user, assistant, tool or legacy function, the
produced UpstreamRequest has a non-empty messages list; and the
upstream system field is present iff at least one system-role message
contributed non-empty extracted text. -/
theorem claimC1_amended (env : Env) (req : ChatRequest) :
    ((∃ m ∈ req.messages.getD [], producesMessage m = true) →
      (convertOpenAIToAnthropic env req).messages ≠ []) ∧
    ((convertOpenAIToAnthropic env req).system.isSome = true ↔
      ∃ m ∈ req.messages.getD [], sysContribNonempty m = true) := by
  constructor
  · intro h
    show ¬_ = _
    simp only [convertOpenAIToAnthropic, convertMessages, ne_eq, List.reverse_eq_nil_iff]
    exact foldl_convertStep_produces env _ _ h
  · simp only [convertOpenAIToAnthropic, convertMessages]
    rw [truthy_guard_isSome, foldl_convertStep_sys]
    simp [jsTruthyStr, List.any_eq_true]

theorem claimC1_witness :
    (convertOpenAIToAnthropic testEnv
      { messages := some [OAMessage.user (OAContent.str "hi")] }).messages ≠ [] :=
  (claimC1_amended testEnv _).1
    ⟨OAMessage.user (OAContent.str "hi"), List.mem_singleton.mpr rfl, rfl⟩

/-- C2: no translated upstream assistant-role message ever contains a
tool_result block, and a trailing tool-role message whose preceding
upstream message is not user-role (or that has no preceding upstream
message) yields a new synthetic user-role message holding exactly that
tool_result. -/
theorem claimC2_tool_result_placement (env : Env) (msgs : List OAMessage)
    (tid : String) (c : OAContent) :
    (∀ m ∈ (convertMessages env msgs).2, m.role = "assistant" →
      m.content.hasToolResult = false) ∧
    (lastRoleIsUser (convertMessages env msgs).2 = false →
      (convertMessages env (msgs ++ [OAMessage.tool tid c])).2
        = (convertMessages env msgs).2
          ++ [{ role := "user",
                content := .blocks [.toolResult tid (toolResultContentStr env c)] }]) := by
  constructor
  · intro m hm hrole
    have h2 : m ∈ (msgs.foldl (convertStep env) ((none : Option String), ([] : List AMessage))).2 := by
      rw [← List.mem_reverse]
      simpa [convertMessages] using hm
    exact foldl_convertStep_assistantOk env msgs (none, []) (by simp [assistantOk]) m h2 hrole
  · intro hlast
    have happ : ((msgs ++ [OAMessage.tool tid c]).foldl (convertStep env)
          ((none : Option String), ([] : List AMessage)))
        = convertStep env (msgs.foldl (convertStep env) (none, [])) (OAMessage.tool tid c) := by
      rw [List.foldl_append]; rfl
    simp only [convertMessages] at hlast ⊢
    rw [happ]
    rcases hF : (msgs.foldl (convertStep env) ((none : Option String), ([] : List AMessage))).2
        with _ | ⟨m0, rest⟩
    · simp [convertStep, hF, stepToolResult]
    · rw [hF] at hlast
      unfold lastRoleIsUser at hlast
      rw [List.getLast?_reverse] at hlast
      simp only [List.head?_cons] at hlast
      have hm0 : ¬ m0.role = "user" := beq_eq_false_iff_ne.mp hlast
      simp [convertStep, hF, stepToolResult, hm0]

theorem claimC2_witness :
    lastRoleIsUser (convertMessages testEnv [OAMessage.assistant (OAContent.str "a") [] none]).2 = false ∧
    (convertMessages testEnv ([OAMessage.assistant (OAContent.str "a") [] none]
        ++ [OAMessage.tool "t1" (OAContent.str "ok")])).2
      = (convertMessages testEnv [OAMessage.assistant (OAContent.str "a") [] none]).2
        ++ [{ role := "user",
              content := .blocks [.toolResult "t1" (toolResultContentStr testEnv (OAContent.str "ok"))] }] ∧
    (AMessage.mk "assistant" (AMsgContent.str "a")).content.hasToolResult = false := by
  refine ⟨rfl, (claimC2_tool_result_placement testEnv _ "t1" (OAContent.str "ok")).2 rfl, ?_⟩
  have hmem : AMessage.mk "assistant" (AMsgContent.str "a")
      ∈ (convertMessages testEnv [OAMessage.assistant (OAContent.str "a") [] none]).2 := by
    rw [show (convertMessages testEnv [OAMessage.assistant (OAContent.str "a") [] none]).2
        = [AMessage.mk "assistant" (AMsgContent.str "a")] from rfl]
    exact List.mem_singleton.mpr rfl
  exact (claimC2_tool_result_placement testEnv [OAMessage.assistant (OAContent.str "a") [] none]
    "t1" (OAContent.str "ok")).1 _ hmem rfl

theorem mapFinishReason_cases (o : Option String)
    (h : ∀ r, o = some r → r ∉ objectPrototypeKeys) :
    mapFinishReason o = .str "stop" ∨ mapFinishReason o = .str "length" ∨
      mapFinishReason o = .str "tool_calls" := by
  rcases o with _ | s
  · left; rfl
  · have hs := h s rfl
    rcases hl : reasonMap.lookup s with _ | v
    · simp [mapFinishReason, reasonMapGet, hl, hs]
    · have hv : v = "stop" ∨ v = "length" ∨ v = "tool_calls" := by
        simp only [reasonMap, List.lookup] at hl
        repeat' split at hl
        all_goals simp_all
      simp only [mapFinishReason, reasonMapGet, hl]
      rcases hv with rfl | rfl | rfl
      · exact Or.inl rfl
      · exact Or.inr (Or.inl rfl)
      · exact Or.inr (Or.inr rfl)

theorem convertStreamEvent_chunk_shape (freshId : String) (now : Nat) (requestModel : String)
    (e : AEvent) (st : StreamState) :
    ∀ c ∈ (convertStreamEvent freshId now requestModel e st).1,
      (c.usage.isSome = true → c.choices = []) ∧
      (∀ ch ∈ c.choices,
        ((ch.delta.content.isSome = true ∨ ch.delta.reasoning_content.isSome = true ∨
            ch.delta.tool_calls.isSome = true) → c.usage = none) ∧
        (∀ v, ch.finish_reason = some v →
          ∃ r, eventStopReason e = some r ∧ v = mapFinishReason (some r))) := by
  intro c hc
  cases e with
  | message_start =>
      simp only [convertStreamEvent, List.mem_singleton] at hc
      subst hc
      refine ⟨by simp, ?_⟩
      intro ch hch
      simp only [List.mem_singleton] at hch
      subst hch
      exact ⟨fun _ => rfl, by simp⟩
  | content_block_start cb =>
      rcases cb with _ | cb
      · simp [convertStreamEvent] at hc
      · cases cb with
        | tool_use id name =>
            simp only [convertStreamEvent, List.mem_singleton] at hc
            subst hc
            refine ⟨by simp, ?_⟩
            intro ch hch
            simp only [List.mem_singleton] at hch
            subst hch
            exact ⟨fun _ => rfl, by simp⟩
        | otherStart => simp [convertStreamEvent] at hc
  | content_block_delta d =>
      rcases d with _ | d
      · simp [convertStreamEvent] at hc
      · cases d with
        | text_delta t =>
            by_cases ht : t = ""
            · simp [convertStreamEvent, ht] at hc
            · simp only [convertStreamEvent, if_neg ht, List.mem_singleton] at hc
              subst hc
              refine ⟨by simp, ?_⟩
              intro ch hch
              simp only [List.mem_singleton] at hch
              subst hch
              exact ⟨fun _ => rfl, by simp⟩
        | thinking_delta t =>
            by_cases ht : t = ""
            · simp [convertStreamEvent, ht] at hc
            · simp only [convertStreamEvent, if_neg ht, List.mem_singleton] at hc
              subst hc
              refine ⟨by simp, ?_⟩
              intro ch hch
              simp only [List.mem_singleton] at hch
              subst hch
              exact ⟨fun _ => rfl, by simp⟩
        | input_json_delta pj =>
            by_cases hpj : pj = ""
            · simp [convertStreamEvent, hpj] at hc
            · rcases hctc : st.currentToolCall with _ | ctc
              · simp [convertStreamEvent, hpj, hctc] at hc
              · simp only [convertStreamEvent, if_neg hpj, hctc, List.mem_singleton] at hc
                subst hc
                refine ⟨by simp, ?_⟩
                intro ch hch
                simp only [List.mem_singleton] at hch
                subst hch
                exact ⟨fun _ => rfl, by simp⟩
        | otherDelta => simp [convertStreamEvent] at hc
  | content_block_stop => simp [convertStreamEvent] at hc
  | message_delta sr u =>
      rcases sr with _ | r
      · rcases u with _ | uu
        · simp [convertStreamEvent] at hc
        · simp only [convertStreamEvent, List.nil_append, List.mem_singleton] at hc
          subst hc
          exact ⟨fun _ => rfl, by simp⟩
      · by_cases hr : r = ""
        · rcases u with _ | uu
          · simp [convertStreamEvent, hr] at hc
          · simp only [convertStreamEvent, if_pos hr, List.nil_append,
              List.mem_singleton] at hc
            subst hc
            exact ⟨fun _ => rfl, by simp⟩
        · rcases u with _ | uu
          · simp only [convertStreamEvent, if_neg hr, List.mem_singleton] at hc
            subst hc
            refine ⟨by simp, ?_⟩
            intro ch hch
            simp only [List.mem_singleton] at hch
            subst hch
            refine ⟨fun hcon => by simp at hcon, ?_⟩
            intro v hv
            exact ⟨r, rfl, (Option.some.inj hv).symm⟩
          · simp only [convertStreamEvent, if_neg hr, List.cons_append, List.nil_append,
              List.mem_cons, List.mem_singleton] at hc
            rcases hc with rfl | rfl | hfalse
            rotate_right
            · simp at hfalse
            · refine ⟨by simp, ?_⟩
              intro ch hch
              simp only [List.mem_singleton] at hch
              subst hch
              refine ⟨fun hcon => by simp at hcon, ?_⟩
              intro v hv
              exact ⟨r, rfl, (Option.some.inj hv).symm⟩
            · exact ⟨fun _ => rfl, by simp⟩
  | message_stop => simp [convertStreamEvent] at hc
  | error => simp [convertStreamEvent] at hc

/-- C5 (counterexample): the stop reason toString is neither one of
the four mapped keys nor sent to stop: the object lookup finds the
inherited Object.prototype member, which is truthy, so the fallback
never fires and the unmapped inherited value leaks into the response
translator's finish reason. -/
theorem claimC5_counterexample :
    mapFinishReason (some "toString") = FinishValue.protoMember "toString" ∧
    FinishValue.protoMember "toString" ≠ FinishValue.str "stop" ∧
    "toString" ∉ ["end_turn", "stop_sequence", "max_tokens", "tool_use"] ∧
    (convertAnthropicToOpenAI testEnv "x" 0
        { stop_reason := some "toString" } none).choices.map OAIChoice.finish_reason
      = [FinishValue.protoMember "toString"] :=
  ⟨rfl, by decide, by decide, rfl⟩

/-- C5 (amended): mapFinishReason sends end_turn and stop_sequence to
stop, max_tokens to length, tool_use to tool_calls, and every other
input that is not the name of an Object.prototype member, including an
absent stop reason, to stop; an input naming an Object.prototype
member returns that inherited member instead.  Consequently every
finish reason the response translator and the stream translator emit
lies in the set containing stop, length and tool_calls, provided the
upstream stop reason does not name an Object.prototype member. -/
theorem claimC5_finish_reason (s : String) (env : Env) (freshId : String) (now : Nat)
    (resp : AnthropicResponse) (requestModel : Option String)
    (streamModel : String) (e : AEvent) (st : StreamState) :
    mapFinishReason (some "end_turn") = FinishValue.str "stop" ∧
    mapFinishReason (some "stop_sequence") = FinishValue.str "stop" ∧
    mapFinishReason (some "max_tokens") = FinishValue.str "length" ∧
    mapFinishReason (some "tool_use") = FinishValue.str "tool_calls" ∧
    mapFinishReason none = FinishValue.str "stop" ∧
    (s ∉ ["end_turn", "stop_sequence", "max_tokens", "tool_use"] →
      s ∉ objectPrototypeKeys → mapFinishReason (some s) = FinishValue.str "stop") ∧
    (s ∈ objectPrototypeKeys → mapFinishReason (some s) = FinishValue.protoMember s) ∧
    ((∀ r, resp.stop_reason = some r → r ∉ objectPrototypeKeys) →
      ∀ ch ∈ (convertAnthropicToOpenAI env freshId now resp requestModel).choices,
        ch.finish_reason = FinishValue.str "stop" ∨
          ch.finish_reason = FinishValue.str "length" ∨
          ch.finish_reason = FinishValue.str "tool_calls") ∧
    ((∀ r, eventStopReason e = some r → r ∉ objectPrototypeKeys) →
      ∀ c ∈ (convertStreamEvent freshId now streamModel e st).1, ∀ ch ∈ c.choices,
        ∀ v, ch.finish_reason = some v →
          v = FinishValue.str "stop" ∨ v = FinishValue.str "length" ∨
            v = FinishValue.str "tool_calls") := by
  refine ⟨rfl, rfl, rfl, rfl, rfl, ?_, ?_, ?_, ?_⟩
  · intro hs hproto
    simp only [List.mem_cons, not_or] at hs
    obtain ⟨h1, h2, h3, h4, -⟩ := hs
    simp only [mapFinishReason, reasonMapGet, reasonMap, List.lookup]
    rw [beq_eq_false_iff_ne.mpr h1, beq_eq_false_iff_ne.mpr h2,
      beq_eq_false_iff_ne.mpr h3, beq_eq_false_iff_ne.mpr h4]
    simp [hproto]
  · intro hmem
    have hl : reasonMap.lookup s = none := by
      fin_cases hmem <;> rfl
    simp [mapFinishReason, reasonMapGet, hl, hmem]
  · intro hproto ch hch
    simp only [convertAnthropicToOpenAI, List.mem_singleton] at hch
    subst hch
    exact mapFinishReason_cases resp.stop_reason hproto
  · intro hproto c hc ch hch v hv
    obtain ⟨r, hr, rfl⟩ :=
      ((convertStreamEvent_chunk_shape freshId now streamModel e st c hc).2 ch hch).2 v hv
    exact mapFinishReason_cases (some r)
      (fun r2 h2 => Option.some.inj h2 ▸ hproto r hr)

theorem claimC5_witness :
    mapFinishReason (some "weird") = FinishValue.str "stop" ∧
    mapFinishReason (some "valueOf") = FinishValue.protoMember "valueOf" ∧
    (∀ ch ∈ (convertAnthropicToOpenAI testEnv "x" 0
        { stop_reason := some "max_tokens" } none).choices,
      ch.finish_reason = FinishValue.str "stop" ∨
        ch.finish_reason = FinishValue.str "length" ∨
        ch.finish_reason = FinishValue.str "tool_calls") ∧
    (FinishValue.str "tool_calls" = FinishValue.str "stop" ∨
      FinishValue.str "tool_calls" = FinishValue.str "length" ∨
      FinishValue.str "tool_calls" = FinishValue.str "tool_calls") := by
  have h := claimC5_finish_reason "weird" testEnv "x" 0
    { stop_reason := some "max_tokens" } none
    "m" (AEvent.message_delta (some "tool_use") none) {}
  have h2 := claimC5_finish_reason "valueOf" testEnv "x" 0
    { stop_reason := some "max_tokens" } none
    "m" (AEvent.message_delta (some "tool_use") none) {}
  refine ⟨h.2.2.2.2.2.1 (by decide) (by decide), h2.2.2.2.2.2.2.1 (by decide),
    h.2.2.2.2.2.2.2.1 ?_, ?_⟩
  · intro r hr
    rw [← Option.some.inj hr]
    decide
  · refine h.2.2.2.2.2.2.2.2 ?_
      { id := "chatcmpl-x", created := 0, model := "m",
        choices := [{ index := 0, delta := {},
                      finish_reason := some (FinishValue.str "tool_calls") }] }
      (by decide) _ (List.mem_singleton.mpr rfl) (FinishValue.str "tool_calls") rfl
    intro r hr
    rw [← Option.some.inj hr]
    decide

/-- C7 (counterexample): a request whose stop field is the single
(empty) string produces no stop_sequences field at all, not the
one-element sequence containing that string. -/
theorem claimC7_counterexample :
    ({ stop := .str "" } : ChatRequest).stop = StopField.str "" ∧
    (convertOpenAIToAnthropic testEnv { stop := .str "" }).stop_sequences = none ∧
    (none : Option (List String)) ≠ some [""] :=
  ⟨rfl, rfl, by simp⟩

/-- C7 (amended): a single non-empty stop string is wrapped into a
one-element stop_sequences list, and an array stop field (empty or
not) passes through unchanged. -/
theorem claimC7_amended (env : Env) (req : ChatRequest) :
    (∀ s, req.stop = .str s → s ≠ "" →
      (convertOpenAIToAnthropic env req).stop_sequences = some [s]) ∧
    (∀ xs, req.stop = .arr xs →
      (convertOpenAIToAnthropic env req).stop_sequences = some xs) := by
  constructor
  · intro s hstop hs
    simp [convertOpenAIToAnthropic, hstop, hs]
  · intro xs hstop
    simp [convertOpenAIToAnthropic, hstop]

theorem claimC7_witness :
    (convertOpenAIToAnthropic testEnv { stop := .str "halt" }).stop_sequences = some ["halt"] ∧
    (convertOpenAIToAnthropic testEnv { stop := .arr [] }).stop_sequences = some [] :=
  ⟨(claimC7_amended testEnv { stop := .str "halt" }).1 "halt" rfl (by decide),
   (claimC7_amended testEnv { stop := .arr [] }).2 [] rfl⟩

/-- C8 (counterexample): with a present completion-specific bound of 0
and a legacy bound of 100, the upstream token bound is 100, not the
present completion-specific bound 0 the claim requires. -/
theorem claimC8_counterexample :
    ({ max_completion_tokens := some 0, max_tokens := some 100 } : ChatRequest).max_completion_tokens
      = some 0 ∧
    (convertOpenAIToAnthropic testEnv
      { max_completion_tokens := some 0, max_tokens := some 100 }).max_tokens = 100 ∧
    (100 : Nat) ≠ 0 :=
  ⟨rfl, rfl, by decide⟩

theorem resolvedBound_ne_zero (a b : Option Nat) : numOr a (numOr b 4096) ≠ 0 := by
  rcases a with _ | n
  · rcases b with _ | m
    · simp [numOr]
    · by_cases hm : m = 0 <;> simp [numOr, hm]
  · by_cases hn : n = 0
    · rcases b with _ | m
      · simp [numOr, hn]
      · by_cases hm : m = 0 <;> simp [numOr, hn, hm]
    · simp [numOr, hn]

/-- C8 (amended): the upstream token bound equals the
completion-specific bound when present and nonzero, else the legacy
bound when present and nonzero, else 4096; and exactly when the
resolved model identifier contains the substring thinking, the upstream
request carries a thinking budget of min 16000 (floor of half the token
bound). -/
theorem claimC8_amended (env : Env) (req : ChatRequest) :
    (∀ n, req.max_completion_tokens = some n → n ≠ 0 →
      (convertOpenAIToAnthropic env req).max_tokens = n) ∧
    ((req.max_completion_tokens = none ∨ req.max_completion_tokens = some 0) →
      ∀ m, req.max_tokens = some m → m ≠ 0 →
        (convertOpenAIToAnthropic env req).max_tokens = m) ∧
    ((req.max_completion_tokens = none ∨ req.max_completion_tokens = some 0) →
      (req.max_tokens = none ∨ req.max_tokens = some 0) →
      (convertOpenAIToAnthropic env req).max_tokens = 4096) ∧
    (strContainsSub (convertOpenAIToAnthropic env req).model "thinking" = true →
      (convertOpenAIToAnthropic env req).thinking
        = some { budget_tokens := min 16000 ((convertOpenAIToAnthropic env req).max_tokens / 2) }) ∧
    (strContainsSub (convertOpenAIToAnthropic env req).model "thinking" = false →
      (convertOpenAIToAnthropic env req).thinking = none) := by
  refine ⟨?_, ?_, ?_, ?_, ?_⟩
  · intro n h hn
    simp [convertOpenAIToAnthropic, numOr, h, hn]
  · intro hmct m h hm
    rcases hmct with h0 | h0 <;> simp [convertOpenAIToAnthropic, numOr, h0, h, hm]
  · intro hmct hmt
    rcases hmct with h0 | h0 <;> rcases hmt with h1 | h1 <;>
      simp [convertOpenAIToAnthropic, numOr, h0, h1]
  · intro hsub
    have hne := resolvedBound_ne_zero req.max_completion_tokens req.max_tokens
    simp only [convertOpenAIToAnthropic] at hsub ⊢
    rw [if_pos hsub]
    have hX : numOr (some (numOr req.max_completion_tokens (numOr req.max_tokens 4096))) 4096
        = numOr req.max_completion_tokens (numOr req.max_tokens 4096) := by
      show (if _ = 0 then _ else _) = _
      rw [if_neg hne]
    rw [hX]
  · intro hsub
    simp only [convertOpenAIToAnthropic] at hsub ⊢
    rw [if_neg]
    simp [hsub]

theorem claimC8_witness :
    (convertOpenAIToAnthropic testEnv
      { model := some "claude-thinking", max_completion_tokens := some 0,
        max_tokens := some 9 }).max_tokens = 9 ∧
    (convertOpenAIToAnthropic testEnv
      { model := some "claude-thinking", max_completion_tokens := some 0,
        max_tokens := some 9 }).thinking = some { budget_tokens := 4 } ∧
    (convertOpenAIToAnthropic testEnv { model := some "gpt-4" }).thinking = none := by
  have h := claimC8_amended testEnv
    { model := some "claude-thinking", max_completion_tokens := some 0, max_tokens := some 9 }
  have h2 := claimC8_amended testEnv { model := some "gpt-4" }
  refine ⟨h.2.1 (Or.inr rfl) 9 rfl (by decide), ?_, h2.2.2.2.2 rfl⟩
  have hb := h.2.2.2.1 rfl
  rw [hb, h.2.1 (Or.inr rfl) 9 rfl (by decide)]
  decide

/-- C10: the primary message content of a translated response is null
whenever the concatenated upstream text is empty (whether or not tool
calls exist), while a missing or non-array upstream content field
yields the empty string instead of null. -/
theorem claimC10_null_content (env : Env) :
    (∀ blocks, concatTexts blocks = "" →
      (convertContent env (some blocks)).1.content = none) ∧
    (convertContent env none).1.content = some "" := by
  constructor
  · intro blocks h
    simp [convertContent, h]
  · rfl

theorem claimC10_witness :
    (convertContent testEnv (some [ABlockResp.thinking "x",
      ABlockResp.toolUse "t" "f" none])).1.content = none :=
  (claimC10_null_content testEnv).1 _ rfl

theorem concatThinking_ne_empty (blocks : List ABlockResp) (t : String)
    (hmem : ABlockResp.thinking t ∈ blocks) (ht : t ≠ "") :
    concatThinking blocks ≠ "" := by
  induction blocks with
  | nil => simp at hmem
  | cons b rest ih =>
      rcases List.mem_cons.mp hmem with hb | hb
      · rw [← hb]
        exact strAppend_ne_empty_left _ ht
      · cases b with
        | thinking t2 => exact strAppend_ne_empty_right _ (ih hb)
        | text t2 => exact ih hb
        | toolUse id name input => exact ih hb
        | otherResp => exact ih hb

/-- C9: whenever the upstream response content holds a thinking block
with non-empty text, the translated message carries the concatenated
thinking text simultaneously in the custom side-channel field and in
the reasoning_content field, and the primary content is built from the
text blocks only, never from the thinking text. -/
theorem claimC9_thinking_side_channel (env : Env) (blocks : List ABlockResp)
    (h : ∃ t, ABlockResp.thinking t ∈ blocks ∧ t ≠ "") :
    (convertContent env (some blocks)).1.thinking_field = some (concatThinking blocks) ∧
    (convertContent env (some blocks)).1.reasoning_content = some (concatThinking blocks) ∧
    (convertContent env (some blocks)).1.content
      = (if concatTexts blocks = "" then none else some (concatTexts blocks)) := by
  obtain ⟨t, hmem, ht⟩ := h
  have hany : blocks.any ABlockResp.isThinking = true :=
    List.any_eq_true.mpr ⟨_, hmem, rfl⟩
  have hb : (concatThinking blocks != "") = true :=
    bne_iff_ne.mpr (concatThinking_ne_empty blocks t hmem ht)
  simp [convertContent, hany, hb]

theorem claimC9_witness :
    (convertContent testEnv (some [ABlockResp.thinking "x"])).1.thinking_field = some "x" ∧
    (convertContent testEnv (some [ABlockResp.thinking "x"])).1.reasoning_content = some "x" ∧
    (convertContent testEnv (some [ABlockResp.thinking "x"])).1.content = none := by
  have h := claimC9_thinking_side_channel testEnv [ABlockResp.thinking "x"]
    ⟨"x", List.mem_singleton.mpr rfl, by decide⟩
  exact ⟨h.1, h.2.1, h.2.2⟩

theorem collapseAssistant_of_toolUse (bs : List ABlockReq)
    (h : ∃ b ∈ bs, b.isToolUse = true) : collapseAssistant bs = .blocks bs := by
  rcases bs with _ | ⟨b, _ | ⟨b2, rest⟩⟩
  · simp at h
  · obtain ⟨b2, hb2, hbu⟩ := h
    rw [List.mem_singleton] at hb2
    subst hb2
    cases b2 with
    | text t => simp [ABlockReq.isToolUse] at hbu
    | image s => rfl
    | toolUse id name input => rfl
    | toolResult a c => rfl
    | otherBlock j => rfl
  · cases b <;> rfl

/-- C6: an assistant tool invocation whose argument string fails to
parse does not fail the translation: the resulting content is a block
list containing a tool-use block whose input is the raw argument string
wrapped in an object under the key raw — for both the tool_calls list
and the legacy function_call field. -/
theorem claimC6_unparseable_arguments (env : Env) (content : OAContent)
    (tcs : List OAToolCall) (fc : Option OAFunctionCall) :
    (∀ tc ∈ tcs, ∀ s, tc.arguments = ArgsField.str s → env.parse s = none →
      ∃ bs, convertAssistantContent env content tcs fc = AMsgContent.blocks bs ∧
        ABlockReq.toolUse tc.id tc.name (Json.obj [("raw", Json.str s)]) ∈ bs) ∧
    (∀ f s, fc = some f → f.arguments = ArgsField.str s → env.parse s = none →
      ∃ bs, convertAssistantContent env content tcs fc = AMsgContent.blocks bs ∧
        ABlockReq.toolUse env.legacyCallId f.name (Json.obj [("raw", Json.str s)]) ∈ bs) := by
  constructor
  · intro tc htc s hargs hparse
    have hblock : toolCallBlock env.parse tc
        = ABlockReq.toolUse tc.id tc.name (Json.obj [("raw", Json.str s)]) := by
      simp [toolCallBlock, resolveArgs, hargs, hparse]
    have hmem : ABlockReq.toolUse tc.id tc.name (Json.obj [("raw", Json.str s)])
        ∈ assistantBlocks env content tcs fc := by
      refine List.mem_append.mpr (Or.inl (List.mem_append.mpr (Or.inr ?_)))
      exact List.mem_map.mpr ⟨tc, htc, hblock⟩
    exact ⟨_, by simp only [convertAssistantContent,
      collapseAssistant_of_toolUse _ ⟨_, hmem, rfl⟩], hmem⟩
  · intro f s hfc hargs hparse
    have hmem : ABlockReq.toolUse env.legacyCallId f.name (Json.obj [("raw", Json.str s)])
        ∈ assistantBlocks env content tcs fc := by
      refine List.mem_append.mpr (Or.inr ?_)
      simp [functionCallBlocks, hfc, resolveArgs, hargs, hparse]
    exact ⟨_, by simp only [convertAssistantContent,
      collapseAssistant_of_toolUse _ ⟨_, hmem, rfl⟩], hmem⟩

theorem claimC6_witness :
    testEnv.parse "not json" = none ∧
    ∃ bs, convertAssistantContent testEnv OAContent.absent
        [{ id := "id1", name := "fn", arguments := ArgsField.str "not json" }] none
      = AMsgContent.blocks bs ∧
      ABlockReq.toolUse "id1" "fn" (Json.obj [("raw", Json.str "not json")]) ∈ bs :=
  ⟨rfl, (claimC6_unparseable_arguments testEnv OAContent.absent
      [{ id := "id1", name := "fn", arguments := ArgsField.str "not json" }] none).1
    _ (List.mem_singleton.mpr rfl) "not json" rfl rfl⟩

theorem chunksContentText_append (l1 l2 : List Chunk) :
    chunksContentText (l1 ++ l2) = chunksContentText l1 ++ chunksContentText l2 := by
  simp [chunksContentText, concatStrings_append]

theorem convertStreamEvent_text (freshId : String) (now : Nat) (requestModel : String)
    (e : AEvent) (st : StreamState) :
    chunksContentText (convertStreamEvent freshId now requestModel e st).1 = eventTextDelta e := by
  cases e with
  | message_start =>
      simp [convertStreamEvent, chunksContentText, chunkContentText, concatStrings,
        eventTextDelta]
  | content_block_start cb =>
      rcases cb with _ | cb
      · rfl
      · cases cb with
        | tool_use id name =>
            simp [convertStreamEvent, chunksContentText, chunkContentText, concatStrings,
              eventTextDelta]
        | otherStart => rfl
  | content_block_delta d =>
      rcases d with _ | d
      · rfl
      · cases d with
        | text_delta t =>
            by_cases ht : t = "" <;>
              simp [convertStreamEvent, ht, chunksContentText, chunkContentText,
                concatStrings, eventTextDelta, String.append_empty]
        | thinking_delta t =>
            by_cases ht : t = "" <;>
              simp [convertStreamEvent, ht, chunksContentText, chunkContentText,
                concatStrings, eventTextDelta]
        | input_json_delta pj =>
            by_cases hpj : pj = "" <;>
              rcases hctc : st.currentToolCall with _ | ctc <;>
                simp [convertStreamEvent, hpj, hctc, chunksContentText, chunkContentText,
                  concatStrings, eventTextDelta]
        | otherDelta => rfl
  | content_block_stop => rfl
  | message_delta sr u =>
      rcases sr with _ | r
      · rcases u with _ | uu <;>
          simp [convertStreamEvent, chunksContentText, chunkContentText, concatStrings,
            eventTextDelta]
      · by_cases hr : r = "" <;> rcases u with _ | uu <;>
          simp [convertStreamEvent, hr, chunksContentText, chunkContentText, concatStrings,
            eventTextDelta]
  | message_stop => rfl
  | error => rfl

/-- C3: for every finite upstream event sequence fed in order through
the stream translator with one threaded state, the concatenation in
emission order of the content-delta text of the emitted chunks equals
the concatenation in arrival order of the upstream text_delta
payloads. -/
theorem claimC3_stream_text_order (freshId : String) (now : Nat) (requestModel : String)
    (evs : List AEvent) (st : StreamState) :
    chunksContentText (runStream freshId now requestModel evs st) = upstreamTextConcat evs := by
  induction evs generalizing st with
  | nil => rfl
  | cons e es ih =>
      show chunksContentText ((convertStreamEvent freshId now requestModel e st).1
        ++ runStream freshId now requestModel es
          (convertStreamEvent freshId now requestModel e st).2) = _
      rw [chunksContentText_append, convertStreamEvent_text, ih]
      rfl

/-- C4: any chunk emitted by the stream translator that carries a usage
field has an empty choices list, and any chunk whose delta carries
content, reasoning or tool-call data carries no usage field. -/
theorem claimC4_usage_isolation (freshId : String) (now : Nat) (requestModel : String)
    (e : AEvent) (st : StreamState) :
    ∀ c ∈ (convertStreamEvent freshId now requestModel e st).1,
      (c.usage.isSome = true → c.choices = []) ∧
      (∀ ch ∈ c.choices,
        (ch.delta.content.isSome = true ∨ ch.delta.reasoning_content.isSome = true ∨
          ch.delta.tool_calls.isSome = true) → c.usage = none) := by
  intro c hc
  have h := convertStreamEvent_chunk_shape freshId now requestModel e st c hc
  exact ⟨h.1, fun ch hch => (h.2 ch hch).1⟩

theorem claimC4_witness :
    ({ id := "chatcmpl-r", created := 5, model := "m",
       choices := [{ index := 0, delta := { content := some "hi" } }] } : Chunk).usage = none ∧
    ({ id := "chatcmpl-r", created := 5, model := "m", choices := [],
       usage := some { prompt_tokens := 1, completion_tokens := 2,
                       total_tokens := 3 } } : Chunk).choices = [] := by
  constructor
  · exact (claimC4_usage_isolation "r" 5 "m"
      (AEvent.content_block_delta (some (.text_delta "hi"))) {} _ (by decide)).2
      _ (List.mem_singleton.mpr rfl) (Or.inl rfl)
  · exact (claimC4_usage_isolation "r" 5 "m"
      (AEvent.message_delta none (some { input_tokens := some 1, output_tokens := some 2 })) {}
      _ (by decide)).1 rfl
